import Mathlib

/-!
Verification of the content-delivery backend's core pipeline against its
natural-language specification.

The repository's core components are shallowly embedded below, translated
from the TypeScript sources:
  * chunked-upload assembler      — src/api/src/services/file.service.ts
  * version store                 — src/unnamed/part_001 (VersioningService)
  * derived-asset (image) cache   — src/unnamed/part_002 (ImageProcessingService)
  * webhook delivery subsystem    — src/api/src/services/webhook.service.ts
  * byte-range streaming          — src/api/src/services/file.service.ts and
                                    the file controller (src/unnamed/part_007)

Databases (Prisma tables) are modelled as lists of rows, the on-disk
content store as association lists from paths to byte lists, and
machine-external effects (HTTP delivery, the HMAC and MD5 digests, the
sharp image codec) as explicit function parameters.  All definitions are
executable so concrete runs can be checked by `decide`.
-/

deriving instance DecidableEq for Except

namespace Cdn

/-! ### Association lists

The Node maps (`global.chunkUploadSessions : Map<string, Session>`) and the
filesystem (path → bytes) are modelled as association lists with
last-write-wins update.  `alistSet` overwrites the first binding of the key
in place, appending when none exists (matching both `Map.set` and
`fs.writeFile`). -/

def alistGet {κ α : Type} [DecidableEq κ] (k : κ) : List (κ × α) → Option α
  | [] => none
  | (k', v) :: rest => if k' = k then some v else alistGet k rest

def alistSet {κ α : Type} [DecidableEq κ] (k : κ) (v : α) : List (κ × α) → List (κ × α)
  | [] => [(k, v)]
  | (k', v') :: rest => if k' = k then (k, v) :: rest else (k', v') :: alistSet k v rest

def alistRemove {κ α : Type} [DecidableEq κ] (k : κ) : List (κ × α) → List (κ × α)
  | [] => []
  | (k', v') :: rest => if k' = k then rest else (k', v') :: alistRemove k rest

theorem alistGet_set_same {κ α : Type} [DecidableEq κ] (k : κ) (v : α)
    (l : List (κ × α)) : alistGet k (alistSet k v l) = some v := by
  induction l with
  | nil => simp [alistGet, alistSet]
  | cons hd tl ih =>
    by_cases h : hd.1 = k
    · simp [alistSet, alistGet, h]
    · simpa [alistSet, alistGet, h] using ih

theorem alistGet_set_other {κ α : Type} [DecidableEq κ] {k j : κ} (v : α)
    (l : List (κ × α)) (hne : j ≠ k) :
    alistGet j (alistSet k v l) = alistGet j l := by
  induction l with
  | nil => simp [alistGet, alistSet, Ne.symm hne]
  | cons hd tl ih =>
    by_cases h : hd.1 = k
    · simp [alistSet, alistGet, h, Ne.symm hne]
    · simp [alistSet, alistGet, h, ih]

/-! ### Chunked upload assembler

Translated from `FileService` in src/api/src/services/file.service.ts
(lines 528–684): `initChunkedUpload`, `uploadChunk`,
`finalizeChunkedUpload`.  A session lives in the global session map; the
scratch area `.tmp/<sessionId>/chunk-<i>` is the per-session association
list from chunk index to bytes.  Bytes are lists of naturals. -/

structure ChunkUploadSession where
  id : String
  userId : String
  fileName : String
  fileSize : Nat
  mimeType : String
  filePath : String
  chunksReceived : Nat
  totalChunks : Nat
deriving DecidableEq, Repr

structure UploadStore where
  sessions : List (String × ChunkUploadSession)
  scratch : List (String × List (Nat × List Nat))
deriving DecidableEq, Repr

def UploadStore.empty : UploadStore := { sessions := [], scratch := [] }

inductive UploadErr where
  /-- `Upload session not found or expired` (HTTP 404). -/
  | sessionNotFound
  /-- `Incomplete upload: received <r> of <t> chunks` (HTTP 400). -/
  | incompleteUpload (received total : Nat)
  /-- `Failed to finalize upload: ...` (HTTP 500), raised when reading a
  chunk slot fails while concatenating. -/
  | storageFailure
deriving DecidableEq, Repr

/-- file.service.ts:531–571.  Creates the session (`chunksReceived: 0`) and
its private scratch directory.  `nanoid` session ids are passed in
explicitly. -/
def initChunkedUpload (st : UploadStore) (sessionId fileName : String)
    (fileSize : Nat) (mimeType filePath userId : String) (totalChunks : Nat) :
    UploadStore × ChunkUploadSession :=
  let session : ChunkUploadSession :=
    { id := sessionId, userId, fileName, fileSize, mimeType, filePath
      chunksReceived := 0, totalChunks }
  ({ sessions := alistSet sessionId session st.sessions
     scratch := alistSet sessionId [] st.scratch }, session)

/-- file.service.ts:576–604.  Writes the chunk to the slot addressed by
`chunkIndex` (no upper-bound check against `totalChunks`), then increments
`chunksReceived` — unconditionally, also when the slot was already
occupied. -/
def uploadChunk (st : UploadStore) (sessionId : String) (chunkIndex : Nat)
    (chunkBuffer : List Nat) : Except UploadErr (UploadStore × Nat × Nat) :=
  match alistGet sessionId st.sessions with
  | none => .error .sessionNotFound
  | some session =>
    let slots := (alistGet sessionId st.scratch).getD []
    let session' := { session with chunksReceived := session.chunksReceived + 1 }
    .ok ({ sessions := alistSet sessionId session' st.sessions
           scratch := alistSet sessionId (alistSet chunkIndex chunkBuffer slots) st.scratch },
         session'.chunksReceived, session'.totalChunks)

/-- The finalize loop (file.service.ts:635–649): reads `chunk-0` …
`chunk-(n-1)` in index order and appends each to the target file; a missing
slot makes `fs.readFile` throw.  `assembleChunks slots n` is the
concatenation of slots `0..n-1`, `none` when some slot is absent. -/
def assembleChunks (slots : List (Nat × List Nat)) : Nat → Option (List Nat)
  | 0 => some []
  | n + 1 =>
    match assembleChunks slots n, alistGet n slots with
    | some acc, some b => some (acc ++ b)
    | _, _ => none

/-- file.service.ts:609–683.  Requires `chunksReceived == totalChunks`
(`!==` check, line 622) before touching any bytes; on success the store
commits the concatenation, deletes the scratch area and destroys the
session.  (On a mid-concatenation read failure the real code leaves a
partially written target file behind; the model simply reports the
error.) -/
def finalizeChunkedUpload (st : UploadStore) (sessionId : String) :
    Except UploadErr (UploadStore × List Nat) :=
  match alistGet sessionId st.sessions with
  | none => .error .sessionNotFound
  | some session =>
    if session.chunksReceived ≠ session.totalChunks then
      .error (.incompleteUpload session.chunksReceived session.totalChunks)
    else
      match assembleChunks ((alistGet sessionId st.scratch).getD []) session.totalChunks with
      | none => .error .storageFailure
      | some bytes =>
        .ok ({ sessions := alistRemove sessionId st.sessions
               scratch := alistRemove sessionId st.scratch }, bytes)

/-- Test harness: run `uploadChunk`, keeping the old store on error. -/
def uploadChunkOk (st : UploadStore) (sessionId : String) (chunkIndex : Nat)
    (chunkBuffer : List Nat) : UploadStore :=
  match uploadChunk st sessionId chunkIndex chunkBuffer with
  | .ok (st', _, _) => st'
  | .error _ => st

/-- Sequential replay of a list of `uploadChunk` calls, as issued by the
chunk-upload route. -/
def runUploads (st : UploadStore) (sessionId : String) :
    List (Nat × List Nat) → Except UploadErr UploadStore
  | [] => .ok st
  | (i, b) :: rest =>
    match uploadChunk st sessionId i b with
    | .ok (st', _, _) => runUploads st' sessionId rest
    | .error e => .error e

/-- The bytes a slot holds after a sequence of writes: the last write to
that index, if any. -/
def lastWrite : List (Nat × List Nat) → Nat → Option (List Nat)
  | [], _ => none
  | (i, b) :: rest, j =>
    match lastWrite rest j with
    | some v => some v
    | none => if i = j then some b else none

def joinAll : List (List Nat) → List Nat
  | [] => []
  | l :: ls => l ++ joinAll ls

/-! ### Version store

Translated from `VersioningService` in src/unnamed/part_001.  The `File`
and `FileVersion` Prisma tables are lists of rows; the live content store
and the `.versions/<fileId>/v<n>` slots are association lists.  The MD5
digest (`createHash('md5')...digest('hex')`, part_001:85) is an explicit
function parameter `hash`.  `createVersion` also triggers a
`version.created` webhook event (part_001:99–105); `triggerEvent` swallows
its own errors, so this never affects the result and is not modelled
here. -/

structure FileRow where
  id : String
  userId : String
  name : String
  path : String
  mimeType : String
  size : Nat
  checksum : Option String
deriving DecidableEq, Repr

structure VersionRow where
  fileId : String
  versionNumber : Nat
  path : String
  size : Nat
  checksum : String
deriving DecidableEq, Repr

structure VersioningState where
  files : List FileRow
  versions : List VersionRow
  disk : List (String × List Nat)
  versionFiles : List ((String × Nat) × List Nat)
deriving DecidableEq, Repr

inductive VersioningErr where
  /-- `Verziovanie súborov je vypnuté` (HTTP 400). -/
  | featureDisabled
  /-- File or version not found (HTTP 404). -/
  | notFound
  /-- An `fs` operation threw (surfaced as HTTP 500). -/
  | storage
deriving DecidableEq, Repr

def findFile (st : VersioningState) (fileId : String) : Option FileRow :=
  st.files.find? (fun f => f.id == fileId)

def findFileOwned (st : VersioningState) (fileId userId : String) : Option FileRow :=
  st.files.find? (fun f => f.id == fileId && f.userId == userId)

def findVersion (st : VersioningState) (fileId : String) (versionNumber : Nat) :
    Option VersionRow :=
  st.versions.find? (fun r => r.fileId == fileId && r.versionNumber == versionNumber)

/-- part_001:48–67: `versions orderBy versionNumber desc take 1` picks the
highest existing version number; 0 when none exist. -/
def maxVersionRows (rows : List VersionRow) (fileId : String) : Nat :=
  ((rows.filter (fun r => r.fileId == fileId)).map (·.versionNumber)).foldr max 0

def maxVersion (st : VersioningState) (fileId : String) : Nat :=
  maxVersionRows st.versions fileId

/-- `path.join(a, b)` for the relative paths used here. -/
def joinPath (a b : String) : String :=
  if a = "" then b else a ++ "/" ++ b

/-- part_001:41–112 (`VersioningService.createVersion`).  Copies the bytes
at `originalPath` into the slot `v(max+1)`, records size and MD5 checksum,
and appends the `FileVersion` row. -/
def createVersion (hash : List Nat → String) (enabled : Bool) (st : VersioningState)
    (fileId originalPath : String) :
    Except VersioningErr (VersioningState × VersionRow) :=
  if !enabled then .error .featureDisabled else
  match findFile st fileId with
  | none => .error .notFound
  | some _file =>
    let newVersionNumber := maxVersion st fileId + 1
    match alistGet originalPath st.disk with
    | none => .error .storage
    | some bytes =>
      let row : VersionRow :=
        { fileId, versionNumber := newVersionNumber
          path := fileId ++ "/v" ++ toString newVersionNumber
          size := bytes.length, checksum := hash bytes }
      .ok ({ st with
              versions := st.versions ++ [row]
              versionFiles := alistSet (fileId, newVersionNumber) bytes st.versionFiles },
           row)

/-- part_001:117–132: all versions of a file, ordered by `versionNumber`
descending.  (The ordering is presentational; the claims below only use
membership, so the filter is kept unsorted.) -/
def getVersions (st : VersioningState) (fileId : String) : List VersionRow :=
  st.versions.filter (fun r => r.fileId == fileId)

/-- part_001:174–231 (`VersioningService.restoreVersion`).  Snapshots the
current live bytes via `createVersion`, copies the historical slot over the
live file, then recomputes size and checksum on the live `File` row. -/
def restoreVersion (hash : List Nat → String) (enabled : Bool) (st : VersioningState)
    (fileId : String) (versionNumber : Nat) (userId : String) :
    Except VersioningErr VersioningState :=
  if !enabled then .error .featureDisabled else
  match findFileOwned st fileId userId with
  | none => .error .notFound
  | some file =>
    match findVersion st fileId versionNumber with
    | none => .error .notFound
    | some _version =>
      let livePath := joinPath file.path file.name
      match createVersion hash enabled st fileId livePath with
      | .error e => .error e
      | .ok (st1, _snap) =>
        match alistGet (fileId, versionNumber) st1.versionFiles with
        | none => .error .storage
        | some versionBytes =>
          .ok { st1 with
                 disk := alistSet livePath versionBytes st1.disk
                 files := st1.files.map (fun g =>
                   if g.id == fileId then
                     { g with size := versionBytes.length
                              checksum := some (hash versionBytes) }
                   else g) }

/-- Removes the first row matching the predicate (Prisma deletes the row
found by `findFirst`). -/
def removeFirstRow (p : VersionRow → Bool) : List VersionRow → List VersionRow
  | [] => []
  | r :: rs => if p r then rs else r :: removeFirstRow p rs

/-- part_001:236–280 (`VersioningService.deleteVersion`).  Unlinks the
version slot (`fs.unlink` throws when absent) and deletes the row. -/
def deleteVersion (enabled : Bool) (st : VersioningState) (fileId : String)
    (versionNumber : Nat) (userId : String) :
    Except VersioningErr VersioningState :=
  if !enabled then .error .featureDisabled else
  match findFileOwned st fileId userId with
  | none => .error .notFound
  | some _file =>
    match findVersion st fileId versionNumber with
    | none => .error .notFound
    | some _version =>
      match alistGet (fileId, versionNumber) st.versionFiles with
      | none => .error .storage
      | some _ =>
        .ok { st with
               versionFiles := alistRemove (fileId, versionNumber) st.versionFiles
               versions := removeFirstRow
                 (fun r => r.fileId == fileId && r.versionNumber == versionNumber)
                 st.versions }

structure CompareResult where
  differentBytes : Nat
  totalBytes : Nat
  differencePercentage : Rat
deriving DecidableEq, Repr

/-- The comparison loop, part_001:374–381: position `i` counts as
different when it is out of range of either buffer or the bytes differ. -/
def diffAt (a b : List Nat) (i : Nat) : Bool :=
  a.length ≤ i || b.length ≤ i || a.getD i 0 ≠ b.getD i 0

def countDiffBytes (a b : List Nat) : Nat :=
  ((List.range (max a.length b.length)).filter (diffAt a b)).length

/-- part_001:327–392 (`VersioningService.compareVersions`).  When both
stored checksums are truthy (non-empty — MD5 hex digests always are) and
equal, the zero-difference result is returned without reading any bytes;
the returned flag records whether file bytes were read.  (For two empty
buffers the real code computes `0/0 = NaN` as the percentage; rational
division by zero yields 0 here.  No claim touches that corner.) -/
def compareVersions (enabled : Bool) (st : VersioningState) (fileId : String)
    (versionA versionB : Nat) :
    Except VersioningErr (CompareResult × Bool) :=
  if !enabled then .error .featureDisabled else
  match findVersion st fileId versionA, findVersion st fileId versionB with
  | some rowA, some rowB =>
    if rowA.checksum ≠ "" ∧ rowB.checksum ≠ "" ∧ rowA.checksum = rowB.checksum then
      .ok ({ differentBytes := 0, totalBytes := rowA.size, differencePercentage := 0 },
           false)
    else
      match alistGet (fileId, versionA) st.versionFiles,
            alistGet (fileId, versionB) st.versionFiles with
      | some bufferA, some bufferB =>
        let maxLength := max bufferA.length bufferB.length
        let differentBytes := countDiffBytes bufferA bufferB
        .ok ({ differentBytes, totalBytes := maxLength
               differencePercentage := (differentBytes : Rat) / (maxLength : Rat) * 100 },
             true)
      | _, _ => .error .storage
  | _, _ => .error .notFound

/-- Test harness: run `createVersion`, keeping the old state on error. -/
def createVersionOk (hash : List Nat → String) (enabled : Bool) (st : VersioningState)
    (fileId originalPath : String) : VersioningState :=
  match createVersion hash enabled st fileId originalPath with
  | .ok (st', _) => st'
  | .error _ => st

/-- Test harness: the version number `createVersion` assigns (0 on error). -/
def createVersionNum (hash : List Nat → String) (enabled : Bool) (st : VersioningState)
    (fileId originalPath : String) : Nat :=
  match createVersion hash enabled st fileId originalPath with
  | .ok (_, row) => row.versionNumber
  | .error _ => 0

/-- Test harness: run `deleteVersion`, keeping the old state on error. -/
def deleteVersionOk (enabled : Bool) (st : VersioningState) (fileId : String)
    (versionNumber : Nat) (userId : String) : VersioningState :=
  match deleteVersion enabled st fileId versionNumber userId with
  | .ok st' => st'
  | .error _ => st

/-! ### Derived-asset (image-variant) pipeline

Translated from `ImageProcessingService` in src/unnamed/part_002.  The
sharp pipeline (resize/grayscale/blur/rotate/encode, part_002:219–278) is
an external codec and enters the model as a function parameter `render`;
`sharp(output).metadata()` (part_002:287) as `imgMeta`, returning the
output's width, height and format. -/

structure VariantOptions where
  width : Option Nat
  height : Option Nat
  format : Option String
  quality : Option Nat
  crop : Bool
  grayscale : Bool
  blur : Option Nat
  rotate : Option Int
deriving DecidableEq, Repr

/-- part_002:22–27 (`predefinedVariants`). -/
def predefinedVariants (preset : String) : Option VariantOptions :=
  if preset = "thumbnail" then
    some { width := some 150, height := some 150, format := some "webp"
           quality := some 80, crop := false, grayscale := false
           blur := none, rotate := none }
  else if preset = "small" then
    some { width := some 320, height := none, format := some "webp"
           quality := some 80, crop := false, grayscale := false
           blur := none, rotate := none }
  else if preset = "medium" then
    some { width := some 640, height := none, format := some "webp"
           quality := some 80, crop := false, grayscale := false
           blur := none, rotate := none }
  else if preset = "large" then
    some { width := some 1280, height := none, format := some "webp"
           quality := some 80, crop := false, grayscale := false
           blur := none, rotate := none }
  else none

/-- part_002:75–77 (`isImage`): the MIME types matched by the regex. -/
def isImage (mimeType : String) : Bool :=
  mimeType ∈ ["image/jpeg", "image/jpg", "image/png", "image/gif",
              "image/webp", "image/tiff", "image/svg+xml", "image/avif"]

structure ImageVariantRow where
  fileId : String
  variantKey : String
  width : Option Nat
  height : Option Nat
  format : String
  quality : Option Nat
  path : String
  size : Nat
deriving DecidableEq, Repr

structure ImageState where
  files : List FileRow
  variants : List ImageVariantRow
  disk : List (String × List Nat)
  variantDisk : List (String × List Nat)
deriving DecidableEq, Repr

inductive ImgErr where
  /-- `Spracovanie obrázkov je vypnuté` (HTTP 400). -/
  | featureDisabled
  /-- Unknown preset name (HTTP 400). -/
  | invalidPreset
  /-- File not found (HTTP 404). -/
  | notFound
  /-- `Súbor nie je obrázok` (HTTP 400). -/
  | notImage
  /-- An `fs` operation threw (surfaced as HTTP 500). -/
  | storage
deriving DecidableEq, Repr

def findFileI (st : ImageState) (fileId : String) : Option FileRow :=
  st.files.find? (fun f => f.id == fileId)

def findVariantRow (st : ImageState) (fileId variantKey : String) :
    Option ImageVariantRow :=
  st.variants.find? (fun r => r.fileId == fileId && r.variantKey == variantKey)

def variantRowsFor (st : ImageState) (fileId variantKey : String) :
    List ImageVariantRow :=
  st.variants.filter (fun r => r.fileId == fileId && r.variantKey == variantKey)

def replaceFirstVariant (p : ImageVariantRow → Bool) (row : ImageVariantRow) :
    List ImageVariantRow → List ImageVariantRow
  | [] => []
  | r :: rs => if p r then row :: rs else r :: replaceFirstVariant p row rs

/-- `prisma.imageVariant.upsert` on the unique key `(fileId, variantKey)`
(part_002:290–315): updates the existing row in place, creates it
otherwise. -/
def upsertVariant (rows : List ImageVariantRow) (row : ImageVariantRow) :
    List ImageVariantRow :=
  let p : ImageVariantRow → Bool :=
    fun r => r.fileId == row.fileId && r.variantKey == row.variantKey
  if rows.any p then replaceFirstVariant p row rows else rows ++ [row]

/-- part_002:191–318 (`ImageProcessingService.createVariant`).  Reads the
original at `file.path`, renders the variant, writes
`.variants/<fileId>/<key>.<format>` and upserts the row with the rendered
output's metadata and size. -/
def createVariant (render : List Nat → VariantOptions → List Nat)
    (imgMeta : List Nat → Option Nat × Option Nat × String)
    (st : ImageState) (fileId variantKey : String) (options : VariantOptions) :
    Except ImgErr (ImageState × ImageVariantRow) :=
  match findFileI st fileId with
  | none => .error .notFound
  | some file =>
    match alistGet file.path st.disk with
    | none => .error .storage
    | some inputBuffer =>
      let outputBuffer := render inputBuffer options
      let variantFileName := variantKey ++ "." ++ options.format.getD "webp"
      let variantRelativePath := fileId ++ "/" ++ variantFileName
      let meta := imgMeta outputBuffer
      let row : ImageVariantRow :=
        { fileId, variantKey, width := meta.1, height := meta.2.1
          format := meta.2.2, quality := options.quality
          path := variantRelativePath, size := outputBuffer.length }
      .ok ({ st with
              variantDisk := alistSet variantRelativePath outputBuffer st.variantDisk
              variants := upsertVariant st.variants row }, row)

/-- The regenerate-and-read-back tail of `getPresetVariant`
(part_002:130–135): create the variant, then read the freshly written
file. -/
def presetRegenerate (render : List Nat → VariantOptions → List Nat)
    (imgMeta : List Nat → Option Nat × Option Nat × String)
    (st : ImageState) (fileId preset : String) (options : VariantOptions) :
    Except ImgErr (ImageState × ImageVariantRow × List Nat) :=
  match createVariant render imgMeta st fileId preset options with
  | .error e => .error e
  | .ok (st', variant) =>
    match alistGet variant.path st'.variantDisk with
    | none => .error .storage
    | some buffer => .ok (st', variant, buffer)

/-- part_002:82–140 (`ImageProcessingService.getPresetVariant`).  Returns
the cached row when its bytes are readable; regenerates when the row is
absent or its file is missing on disk. -/
def getPresetVariant (render : List Nat → VariantOptions → List Nat)
    (imgMeta : List Nat → Option Nat × Option Nat × String) (enabled : Bool)
    (st : ImageState) (fileId preset : String) :
    Except ImgErr (ImageState × ImageVariantRow × List Nat) :=
  if !enabled then .error .featureDisabled else
  match predefinedVariants preset with
  | none => .error .invalidPreset
  | some options =>
    match findFileI st fileId with
    | none => .error .notFound
    | some file =>
      if !isImage file.mimeType then .error .notImage else
      match findVariantRow st fileId preset with
      | some variant =>
        match alistGet variant.path st.variantDisk with
        | some buffer => .ok (st, variant, buffer)
        | none => presetRegenerate render imgMeta st fileId preset options
      | none => presetRegenerate render imgMeta st fileId preset options

theorem filter_eq_singleton_of_find? {α : Type} (p : α → Bool) :
    ∀ (l : List α) (v : α), l.find? p = some v → (l.filter p).length ≤ 1 →
      l.filter p = [v] := by
  intro l
  induction l with
  | nil => intro v h; cases h
  | cons hd tl ih =>
    intro v hfind hlen
    by_cases hp : p hd = true
    · have hv : hd = v := by
        rw [List.find?_cons_of_pos _ hp] at hfind
        exact Option.some.inj hfind
      subst hv
      rw [List.filter_cons_of_pos hp] at hlen ⊢
      have htl : tl.filter p = [] := by
        refine List.length_eq_zero.mp ?_
        simp only [List.length_cons] at hlen
        omega
      rw [htl]
    · rw [List.find?_cons_of_neg _ (by simp [hp])] at hfind
      rw [List.filter_cons_of_neg (by simp [hp])] at hlen ⊢
      exact ih v hfind hlen

theorem find?_of_filter_singleton {α : Type} (p : α → Bool) :
    ∀ (l : List α) (v : α), l.filter p = [v] → l.find? p = some v := by
  intro l
  induction l with
  | nil => intro v h; cases h
  | cons hd tl ih =>
    intro v hfil
    by_cases hp : p hd = true
    · rw [List.filter_cons_of_pos hp] at hfil
      have hv : hd = v := (List.cons.injEq _ _ _ _ ▸ hfil).1
      rw [List.find?_cons_of_pos _ hp, hv]
    · rw [List.filter_cons_of_neg (by simp [hp])] at hfil
      rw [List.find?_cons_of_neg _ (by simp [hp])]
      exact ih v hfil

theorem filter_replaceFirstVariant (p : ImageVariantRow → Bool)
    (row : ImageVariantRow) (hrow : p row = true) :
    ∀ rows : List ImageVariantRow, rows.any p = true →
      (rows.filter p).length ≤ 1 →
      (replaceFirstVariant p row rows).filter p = [row] := by
  intro rows
  induction rows with
  | nil => intro h; cases h
  | cons hd tl ih =>
    intro hany hlen
    by_cases hp : p hd = true
    · rw [List.filter_cons_of_pos hp] at hlen
      have htl : tl.filter p = [] := by
        refine List.length_eq_zero.mp ?_
        simp only [List.length_cons] at hlen
        omega
      simp only [replaceFirstVariant, hp, if_true]
      rw [List.filter_cons_of_pos hrow, htl]
    · have hany' : tl.any p = true := by
        rcases List.any_eq_true.mp hany with ⟨r, hr, hpr⟩
        rcases List.mem_cons.mp hr with rfl | hmem
        · exact absurd hpr (by simp [hp])
        · exact List.any_eq_true.mpr ⟨r, hmem, hpr⟩
      rw [List.filter_cons_of_neg (by simp [hp])] at hlen
      have hrepl : replaceFirstVariant p row (hd :: tl) =
          hd :: replaceFirstVariant p row tl := by
        simp [replaceFirstVariant, hp]
      rw [hrepl, List.filter_cons_of_neg (by simp [hp])]
      exact ih hany' hlen

/-- Upserting leaves exactly one row under the upsert key. -/
theorem filter_upsertVariant (rows : List ImageVariantRow)
    (row : ImageVariantRow)
    (hlen : (rows.filter (fun r =>
      r.fileId == row.fileId && r.variantKey == row.variantKey)).length ≤ 1) :
    (upsertVariant rows row).filter (fun r =>
      r.fileId == row.fileId && r.variantKey == row.variantKey) = [row] := by
  by_cases hany : rows.any (fun r =>
      r.fileId == row.fileId && r.variantKey == row.variantKey) = true
  · have hu : upsertVariant rows row = replaceFirstVariant
        (fun r => r.fileId == row.fileId && r.variantKey == row.variantKey)
        row rows := by
      simp [upsertVariant, hany]
    rw [hu]
    exact filter_replaceFirstVariant _ row (by simp) rows hany hlen
  · have hu : upsertVariant rows row = rows ++ [row] := by
      simp [upsertVariant, hany]
    rw [hu, List.filter_append]
    have h1 : rows.filter (fun r =>
        r.fileId == row.fileId && r.variantKey == row.variantKey) = [] := by
      rw [List.filter_eq_nil_iff]
      intro a ha
      intro hpa
      exact hany (List.any_eq_true.mpr ⟨a, ha, hpa⟩)
    rw [h1]
    simp

/-- Inversion of a successful `createVariant`: the variant table holds
exactly one row under the upsert key, the `File` table is untouched, and
the rendered bytes are on disk under the row's path. -/
theorem createVariant_ok_spec (render : List Nat → VariantOptions → List Nat)
    (imgMeta : List Nat → Option Nat × Option Nat × String) (st : ImageState)
    (fileId variantKey : String) (options : VariantOptions) (st' : ImageState)
    (row : ImageVariantRow)
    (hlen : (variantRowsFor st fileId variantKey).length ≤ 1)
    (h : createVariant render imgMeta st fileId variantKey options =
      .ok (st', row)) :
    variantRowsFor st' fileId variantKey = [row] ∧
    st'.files = st.files ∧
    (∃ out, alistGet row.path st'.variantDisk = some out) := by
  cases hf : findFileI st fileId with
  | none => rw [createVariant, hf] at h; simp at h
  | some file =>
    cases hd : alistGet file.path st.disk with
    | none => rw [createVariant, hf] at h; simp [hd] at h
    | some input =>
      rw [createVariant, hf] at h
      simp only [hd] at h
      simp only [Except.ok.injEq, Prod.mk.injEq] at h
      obtain ⟨h1, h2⟩ := h
      subst h1
      subst h2
      refine ⟨?_, rfl, ?_⟩
      · simp only [variantRowsFor]
        exact filter_upsertVariant st.variants
          { fileId := fileId, variantKey := variantKey
            width := (imgMeta (render input options)).1
            height := (imgMeta (render input options)).2.1
            format := (imgMeta (render input options)).2.2
            quality := options.quality
            path := fileId ++ "/" ++ (variantKey ++ "." ++ options.format.getD "webp")
            size := (render input options).length } hlen
      · exact ⟨render input options, alistGet_set_same _ _ _⟩

/-- Inversion of the regenerate-and-read-back path. -/
theorem presetRegenerate_ok_spec (render : List Nat → VariantOptions → List Nat)
    (imgMeta : List Nat → Option Nat × Option Nat × String) (st : ImageState)
    (fileId preset : String) (options : VariantOptions) (st1 : ImageState)
    (v1 : ImageVariantRow) (b1 : List Nat)
    (hlen : (variantRowsFor st fileId preset).length ≤ 1)
    (h : presetRegenerate render imgMeta st fileId preset options =
      .ok (st1, v1, b1)) :
    st1.files = st.files ∧
    variantRowsFor st1 fileId preset = [v1] ∧
    findVariantRow st1 fileId preset = some v1 ∧
    alistGet v1.path st1.variantDisk = some b1 := by
  cases hcv : createVariant render imgMeta st fileId preset options with
  | error e => rw [presetRegenerate, hcv] at h; simp at h
  | ok pair =>
    obtain ⟨st', variant⟩ := pair
    rw [presetRegenerate, hcv] at h
    cases hg : alistGet variant.path st'.variantDisk with
    | none =>
      simp only [hg] at h
      simp at h
    | some buffer =>
      simp only [hg] at h
      simp only [Except.ok.injEq, Prod.mk.injEq] at h
      obtain ⟨h1, h2, h3⟩ := h
      subst h1
      subst h2
      subst h3
      obtain ⟨hrows, hfiles, _⟩ :=
        createVariant_ok_spec render imgMeta st fileId preset options st'
          variant hlen hcv
      exact ⟨hfiles, hrows,
        find?_of_filter_singleton _ st'.variants variant hrows, hg⟩

/-- C7: requesting the same preset twice yields the same
`(fileId, variantKey)` row both times with no duplicate rows, with the same
bytes and an unchanged state on the second read; and generation itself
upserts on `(fileId, variantKey)`, so generating twice with the same key
leaves a single logical row, updated in place. -/
theorem presetVariant_idempotent :
    (∀ (render : List Nat → VariantOptions → List Nat)
       (imgMeta : List Nat → Option Nat × Option Nat × String)
       (st : ImageState) (fileId preset : String) (st1 : ImageState)
       (v1 : ImageVariantRow) (b1 : List Nat),
      (variantRowsFor st fileId preset).length ≤ 1 →
      getPresetVariant render imgMeta true st fileId preset =
        .ok (st1, v1, b1) →
      variantRowsFor st1 fileId preset = [v1] ∧
      getPresetVariant render imgMeta true st1 fileId preset =
        .ok (st1, v1, b1)) ∧
    (∀ (render : List Nat → VariantOptions → List Nat)
       (imgMeta : List Nat → Option Nat × Option Nat × String)
       (st : ImageState) (fileId variantKey : String)
       (options : VariantOptions) (st' : ImageState) (row : ImageVariantRow),
      (variantRowsFor st fileId variantKey).length ≤ 1 →
      createVariant render imgMeta st fileId variantKey options =
        .ok (st', row) →
      variantRowsFor st' fileId variantKey = [row]) := by
  constructor
  · intro render imgMeta st fileId preset st1 v1 b1 hlen h
    cases hpv : predefinedVariants preset with
    | none => rw [getPresetVariant, hpv] at h; simp at h
    | some options =>
      cases hf : findFileI st fileId with
      | none => rw [getPresetVariant, hpv, hf] at h; simp at h
      | some file =>
        cases hIm : isImage file.mimeType with
        | false => rw [getPresetVariant, hpv, hf] at h; simp [hIm] at h
        | true =>
          cases hfv : findVariantRow st fileId preset with
          | some v =>
            cases hda : alistGet v.path st.variantDisk with
            | some buf =>
              have hcall : getPresetVariant render imgMeta true st fileId preset
                  = .ok (st, v, buf) := by
                rw [getPresetVariant, hpv, hf]
                simp [hIm, hfv, hda]
              rw [hcall] at h
              simp only [Except.ok.injEq, Prod.mk.injEq] at h
              obtain ⟨h1, h2, h3⟩ := h
              subst h1; subst h2; subst h3
              have hrows : variantRowsFor st fileId preset = [v] :=
                filter_eq_singleton_of_find? _ st.variants v hfv hlen
              exact ⟨hrows, hcall⟩
            | none =>
              have hcall : getPresetVariant render imgMeta true st fileId preset
                  = presetRegenerate render imgMeta st fileId preset options := by
                rw [getPresetVariant, hpv, hf]
                simp [hIm, hfv, hda]
              rw [hcall] at h
              obtain ⟨hfiles, hrows, hfind, hget⟩ :=
                presetRegenerate_ok_spec render imgMeta st fileId preset options
                  st1 v1 b1 hlen h
              have hf1 : findFileI st1 fileId = some file := by
                rw [findFileI, hfiles]; exact hf
              refine ⟨hrows, ?_⟩
              rw [getPresetVariant, hpv, hf1]
              simp [hIm, hfind, hget]
          | none =>
            have hcall : getPresetVariant render imgMeta true st fileId preset
                = presetRegenerate render imgMeta st fileId preset options := by
              rw [getPresetVariant, hpv, hf]
              simp [hIm, hfv]
            rw [hcall] at h
            obtain ⟨hfiles, hrows, hfind, hget⟩ :=
              presetRegenerate_ok_spec render imgMeta st fileId preset options
                st1 v1 b1 hlen h
            have hf1 : findFileI st1 fileId = some file := by
              rw [findFileI, hfiles]; exact hf
            refine ⟨hrows, ?_⟩
            rw [getPresetVariant, hpv, hf1]
            simp [hIm, hfind, hget]
  · intro render imgMeta st fileId variantKey options st' row hlen h
    exact (createVariant_ok_spec render imgMeta st fileId variantKey options
      st' row hlen h).1

def c7Render : List Nat → VariantOptions → List Nat := fun b _ => 0 :: b

def c7Meta : List Nat → Option Nat × Option Nat × String :=
  fun _ => (some 150, some 150, "webp")

def c7St : ImageState :=
  { files := [{ id := "f1", userId := "u1", name := "pic.png", path := "pics/pic.png"
                mimeType := "image/png", size := 3, checksum := none }]
    variants := [], disk := [("pics/pic.png", [1, 2, 3])], variantDisk := [] }

def c7Run : Except ImgErr (ImageState × ImageVariantRow × List Nat) :=
  getPresetVariant c7Render c7Meta true c7St "f1" "thumbnail"

def c7St1 : ImageState :=
  match c7Run with
  | .ok (s, _, _) => s
  | .error _ => c7St

def c7V1 : ImageVariantRow :=
  match c7Run with
  | .ok (_, v, _) => v
  | .error _ => ⟨"", "", none, none, "", none, "", 0⟩

def c7B1 : List Nat :=
  match c7Run with
  | .ok (_, _, b) => b
  | .error _ => []

/-- Witness for C7: a concrete first `thumbnail` request generates and
caches; the repeat request returns the identical row, bytes and state. -/
theorem presetVariant_idempotent_witness :
    (variantRowsFor c7St "f1" "thumbnail").length ≤ 1 ∧
    getPresetVariant c7Render c7Meta true c7St "f1" "thumbnail" =
      .ok (c7St1, c7V1, c7B1) ∧
    (variantRowsFor c7St1 "f1" "thumbnail" = [c7V1] ∧
      getPresetVariant c7Render c7Meta true c7St1 "f1" "thumbnail" =
        .ok (c7St1, c7V1, c7B1)) :=
  ⟨by decide, by decide,
   presetVariant_idempotent.1 c7Render c7Meta c7St "f1" "thumbnail" c7St1 c7V1
     c7B1 (by decide) (by decide)⟩

/-! ### Webhook delivery subsystem

Translated from `WebhookService` in src/api/src/services/webhook.service.ts
and the Bull queue it uses.  HMAC-SHA256 (`createHmac('sha256', secret)`,
line 331) is a function parameter `hmac : secret → message → hex digest`;
the HTTP POST is a function parameter `http`, returning `some status` for a
completed response and `none` for a network error or timeout.  With the
default axios `validateStatus` and `maxRedirects: 0` (lines 339–343), only
2xx responses resolve; every other completed response rejects.

Bull retry semantics: a job is re-run until it completes or `attemptsMade`
reaches the job's `attempts` option; Bull's default is a single attempt,
and `webhookQueue.add('deliver', …)` (line 288) passes no job options. -/

structure WebhookRow where
  id : String
  url : String
  secret : Option String
  active : Bool
  events : List String
deriving DecidableEq, Repr

structure WebhookPayload where
  event : String
  timestamp : String
  data : List (String × String)
deriving DecidableEq, Repr

/-- A `WebhookDelivery` row (webhook.service.ts:346–359 and 366–381).  The
truncated response-summary text is not claim-relevant and is omitted. -/
structure DeliveryRecord where
  webhookId : String
  event : String
  payload : WebhookPayload
  statusCode : Nat
  success : Bool
deriving DecidableEq, Repr

structure WebhookState where
  webhooks : List WebhookRow
  deliveries : List DeliveryRecord
deriving DecidableEq, Repr

structure DeliveryJob where
  webhookId : String
  payload : WebhookPayload
  /-- Bull `attempts` job option; `webhookQueue.add` passes none. -/
  attemptsOpt : Option Nat
deriving DecidableEq, Repr

def bullDefaultAttempts : Nat := 1

def jobAttempts (job : DeliveryJob) : Nat :=
  job.attemptsOpt.getD bullDefaultAttempts

/-- webhook.service.ts:257–297 (`triggerEvent`): one delivery job per
active webhook subscribed to the event, each carrying the same payload. -/
def triggerEvent (st : WebhookState) (eventType timestamp : String)
    (data : List (String × String)) : List DeliveryJob :=
  (st.webhooks.filter (fun w => w.active && w.events.contains eventType)).map
    (fun w => { webhookId := w.id
                payload := { event := eventType, timestamp, data }
                attemptsOpt := none })

/-- `JSON.stringify` string escaping, restricted to the characters the
modelled payloads can contain (backslash and double quote; control
characters are not modelled). -/
def escapeJsonChar (c : Char) : List Char :=
  if c = '\\' then ['\\', '\\']
  else if c = '"' then ['\\', '"'] else [c]

def jsonQuote (s : String) : String :=
  "\"" ++ String.mk (s.data.foldr (fun c acc => escapeJsonChar c ++ acc) []) ++ "\""

def jsonField (k v : String) : String := jsonQuote k ++ ":" ++ jsonQuote v

def jsonFields : List (String × String) → String
  | [] => ""
  | [(k, v)] => jsonField k v
  | (k, v) :: rest => jsonField k v ++ "," ++ jsonFields rest

/-- `JSON.stringify(payload)` for the `{event, timestamp, data}` payload
shape (insertion order of the keys; `data` modelled with string-valued
fields — its value shapes are irrelevant to the delivery contract). -/
def serializePayload (p : WebhookPayload) : String :=
  "\x7b" ++ jsonField "event" p.event ++ "," ++ jsonField "timestamp" p.timestamp
    ++ "," ++ jsonQuote "data" ++ ":" ++ "\x7b" ++ jsonFields p.data ++ "\x7d" ++ "\x7d"

structure DeliveryRequest where
  url : String
  body : String
  contentType : String
  userAgent : String
  eventHeader : String
  signature : Option String
  timeoutMs : Nat
  maxRedirects : Nat
deriving DecidableEq, Repr

/-- webhook.service.ts:321–343: the POST a worker issues — body is the
serialized payload, and the `X-Webhook-Signature` header is the HMAC of
that same string, present exactly when the webhook has a secret. -/
def buildDeliveryRequest (hmac : String → String → String) (w : WebhookRow)
    (p : WebhookPayload) : DeliveryRequest :=
  let payloadString := serializePayload p
  { url := w.url, body := payloadString
    contentType := "application/json"
    userAgent := "CDN-Webhook-Delivery"
    eventHeader := p.event
    signature := w.secret.map (fun s => hmac s payloadString)
    timeoutMs := 10000, maxRedirects := 0 }

def findWebhook (st : WebhookState) (webhookId : String) : Option WebhookRow :=
  st.webhooks.find? (fun w => w.id == webhookId)

def recordDelivery (st : WebhookState) (job : DeliveryJob) (statusCode : Nat)
    (success : Bool) : WebhookState :=
  { st with deliveries := st.deliveries ++
      [{ webhookId := job.webhookId, event := job.payload.event
         payload := job.payload, statusCode, success }] }

structure AttemptResult where
  state : WebhookState
  threw : Bool
  request : Option DeliveryRequest
deriving DecidableEq, Repr

/-- One execution of the `'deliver'` processor (webhook.service.ts:308–384).
A missing or inactive webhook, a network failure, and a non-2xx status all
end in the catch block: a `success=false` record is written and the error
is re-raised for Bull (`threw = true`).  A 2xx response writes a success
record and completes the job. -/
def attemptDelivery (hmac : String → String → String)
    (http : DeliveryRequest → Option Nat) (st : WebhookState)
    (job : DeliveryJob) : AttemptResult :=
  match findWebhook st job.webhookId with
  | none => { state := recordDelivery st job 0 false, threw := true, request := none }
  | some webhook =>
    if !webhook.active then
      { state := recordDelivery st job 0 false, threw := true, request := none }
    else
      let req := buildDeliveryRequest hmac webhook job.payload
      match http req with
      | none =>
        { state := recordDelivery st job 0 false, threw := true, request := some req }
      | some status =>
        if 200 ≤ status ∧ status < 300 then
          { state := recordDelivery st job status true, threw := false
            request := some req }
        else
          { state := recordDelivery st job status false, threw := true
            request := some req }

/-- Bull's retry loop: re-run a throwing job while attempts remain; a job
that completes, or whose attempt budget is exhausted, is finished (and in
the latter case permanently dropped — the `failed` listener only logs).
Returns the final state and the total `attemptsMade`. -/
def deliverWithRetries (hmac : String → String → String)
    (http : DeliveryRequest → Option Nat) (job : DeliveryJob) :
    Nat → WebhookState → Nat → WebhookState × Nat
  | 0, st, made => (st, made)
  | fuel + 1, st, made =>
    let r := attemptDelivery hmac http st job
    if r.threw && fuel ≠ 0 then
      deliverWithRetries hmac http job fuel r.state (made + 1)
    else
      (r.state, made + 1)

/-- Process one enqueued delivery job to completion under Bull's retry
policy with the job's `attempts` option (default 1). -/
def processJob (hmac : String → String → String)
    (http : DeliveryRequest → Option Nat) (st : WebhookState)
    (job : DeliveryJob) : WebhookState × Nat :=
  deliverWithRetries hmac http job (jobAttempts job) st 0

/-! ### Byte-range streaming

Translated from `getFileMetadataAndRange` (file.service.ts:357–404),
`createFileStream` (file.service.ts:409–427) and the 206 response built by
the file controller (src/unnamed/part_007:148–156). -/

structure RangeInfo where
  start : Nat
  endPos : Nat
  length : Nat
  /-- `end - start + 1`, computed in JS arithmetic (may be negative when
  `start > end`, so an integer here). -/
  contentLength : Int
deriving DecidableEq, Repr

/-- The `Range` header parse, file.service.ts:386–388: strip `bytes=`,
split on `-`; an empty second part means "to the end of the file".
(`parseInt` peculiarities on malformed input — `NaN` propagation — are not
modelled; no claim touches them.) -/
def parseRangeHeader (range : String) : Option (Nat × Option Nat) :=
  let stripped := if range.startsWith "bytes=" then range.drop 6 else range
  match stripped.splitOn "-" with
  | [] => none
  | first :: rest =>
    match first.toNat? with
    | none => none
    | some start =>
      match rest with
      | [] => some (start, none)
      | second :: _ =>
        if second = "" then some (start, none)
        else match second.toNat? with
          | none => none
          | some e => some (start, some e)

/-- The range validation and arithmetic, file.service.ts:388–396: `end`
defaults to `size - 1`; `start >= size || end >= size` is rejected with
HTTP 416 (`Požadovaný rozsah nie je dostupný`); otherwise
`contentLength = end - start + 1`. -/
def computeRange (size start : Nat) (endOpt : Option Nat) :
    Except Nat RangeInfo :=
  let e := endOpt.getD (size - 1)
  if size ≤ start ∨ size ≤ e then .error 416
  else .ok { start, endPos := e, length := size
             contentLength := (e : Int) - (start : Int) + 1 }

/-- `fs.createReadStream(path, {start, end})` with both bounds set reads
bytes `start..end` inclusive (file.service.ts:414–420). -/
def readRangeBytes (content : List Nat) (startByte endByte : Nat) : List Nat :=
  (content.drop startByte).take (endByte - startByte + 1)

/-- The `Content-Range` header of the 206 response, part_007:153. -/
def contentRangeHeader (ri : RangeInfo) : String :=
  "bytes " ++ toString ri.start ++ "-" ++ toString ri.endPos ++ "/" ++ toString ri.length

/-- Status of a response honoring a range, part_007:150. -/
def rangeResponseStatus : Nat := 206

/-! ## Claims -/

/-- C8: for a stored object of `N` bytes, a byte-range request with valid
bounds returns exactly `end - start + 1` bytes with the matching
`Content-Range` header and a 206 status, and a range whose start or end
reaches past the object fails with HTTP 416. -/
theorem byteRange_contract (content : List Nat) (start e : Nat) :
    (start ≤ e → e < content.length →
      computeRange content.length start (some e) =
        .ok { start, endPos := e, length := content.length
              contentLength := (e : Int) - (start : Int) + 1 } ∧
      (e : Int) - (start : Int) + 1 = ((e - start + 1 : Nat) : Int) ∧
      (readRangeBytes content start e).length = e - start + 1 ∧
      contentRangeHeader { start, endPos := e, length := content.length,
                           contentLength := (e : Int) - (start : Int) + 1 } =
        "bytes " ++ toString start ++ "-" ++ toString e ++ "/"
          ++ toString content.length ∧
      rangeResponseStatus = 206) ∧
    (content.length ≤ start ∨ content.length ≤ e →
      computeRange content.length start (some e) = .error 416) := by
  constructor
  · intro hse hlt
    have hv : ¬(content.length ≤ start ∨ content.length ≤ e) := by omega
    refine ⟨by simp [computeRange, hv], by omega, ?_, rfl, rfl⟩
    simp [readRangeBytes]
    omega
  · intro h
    simp [computeRange, h]

/-- Witness for C8 at the spec's own example: `bytes=0-99` on a 1000-byte
object yields 100 bytes, `bytes=2000-2100` yields 416. -/
theorem byteRange_contract_witness :
    (readRangeBytes (List.replicate 1000 0) 0 99).length = 99 - 0 + 1 ∧
    computeRange (List.replicate 1000 0).length 2000 (some 2100) = .error 416 := by
  refine ⟨((byteRange_contract (List.replicate 1000 0) 0 99).1
    (by decide) (by rw [List.length_replicate]; omega)).2.2.1, ?_⟩
  exact (byteRange_contract (List.replicate 1000 0) 2000 2100).2
    (Or.inl (by rw [List.length_replicate]; omega))

/-- C9: comparing an existing version with itself returns
`differentBytes = 0` and `differencePercentage = 0` through the cheap
checksum path, without reading any file bytes (the returned flag is
`false`).  The checksum non-emptiness hypothesis holds for every row
`createVersion` writes: MD5 hex digests are 32 characters. -/
theorem compareVersions_same_version (st : VersioningState) (fileId : String)
    (v : Nat) (row : VersionRow) (hfind : findVersion st fileId v = some row)
    (hck : row.checksum ≠ "") :
    compareVersions true st fileId v v =
      .ok ({ differentBytes := 0, totalBytes := row.size
             differencePercentage := 0 }, false) := by
  simp [compareVersions, hfind, hck]

/-- Witness for C9 at a concrete one-version store. -/
theorem compareVersions_same_version_witness :
    findVersion { files := [], versions := [⟨"f1", 1, "f1/v1", 3, "abc"⟩]
                  disk := [], versionFiles := [(("f1", 1), [1, 2, 3])] } "f1" 1
      = some ⟨"f1", 1, "f1/v1", 3, "abc"⟩ ∧
    compareVersions true
      { files := [], versions := [⟨"f1", 1, "f1/v1", 3, "abc"⟩]
        disk := [], versionFiles := [(("f1", 1), [1, 2, 3])] } "f1" 1 1 =
      .ok ({ differentBytes := 0, totalBytes := 3
             differencePercentage := 0 }, false) :=
  ⟨by decide, compareVersions_same_version _ "f1" 1 ⟨"f1", 1, "f1/v1", 3, "abc"⟩
    (by decide) (by decide)⟩

/-- C6: the worker's POST carries the JSON-serialized payload as its body,
`Content-Type: application/json` and `X-Webhook-Event` headers, and — when
and only when the webhook has a secret — an `X-Webhook-Signature` equal to
the HMAC-SHA256 hex digest, keyed by that secret, of exactly the string
transmitted as the body. -/
theorem webhookDelivery_wire_contract (hmac : String → String → String)
    (http : DeliveryRequest → Option Nat) (st : WebhookState)
    (job : DeliveryJob) (w : WebhookRow)
    (hfind : findWebhook st job.webhookId = some w) (hact : w.active = true) :
    ∃ req, (attemptDelivery hmac http st job).request = some req ∧
      req.url = w.url ∧
      req.body = serializePayload job.payload ∧
      req.contentType = "application/json" ∧
      req.eventHeader = job.payload.event ∧
      req.signature = w.secret.map (fun s => hmac s req.body) ∧
      (req.signature.isSome ↔ w.secret.isSome) := by
  refine ⟨buildDeliveryRequest hmac w job.payload, ?_, rfl, rfl, rfl, rfl, rfl,
    by simp [buildDeliveryRequest]⟩
  simp only [attemptDelivery, hfind, hact]
  cases http (buildDeliveryRequest hmac w job.payload) with
  | none => simp
  | some status =>
    by_cases hs : 200 ≤ status ∧ status < 300 <;> simp [hs]

/-- Witness for C6 on a concrete webhook with a secret. -/
theorem webhookDelivery_wire_contract_witness :
    findWebhook { webhooks := [⟨"w1", "https://example.com/hook",
        some "s3cr3t", true, ["file.created"]⟩], deliveries := [] } "w1"
      = some ⟨"w1", "https://example.com/hook", some "s3cr3t", true,
        ["file.created"]⟩ ∧
    (∃ req,
      (attemptDelivery (fun s b => s ++ "#" ++ b) (fun _ => some 200)
        { webhooks := [⟨"w1", "https://example.com/hook", some "s3cr3t", true,
            ["file.created"]⟩], deliveries := [] }
        { webhookId := "w1"
          payload := ⟨"file.created", "2024-01-01T00:00:00Z", []⟩
          attemptsOpt := none }).request = some req ∧
      req.url = "https://example.com/hook" ∧
      req.body = serializePayload ⟨"file.created", "2024-01-01T00:00:00Z", []⟩ ∧
      req.contentType = "application/json" ∧
      req.eventHeader = "file.created" ∧
      req.signature = (some "s3cr3t").map (fun s => (fun s b => s ++ "#" ++ b) s req.body) ∧
      (req.signature.isSome ↔ (some "s3cr3t" : Option String).isSome)) :=
  ⟨by decide,
   webhookDelivery_wire_contract (fun s b => s ++ "#" ++ b) (fun _ => some 200) _ _
     ⟨"w1", "https://example.com/hook", some "s3cr3t", true, ["file.created"]⟩
     (by decide) rfl⟩

/-- The always-failing endpoint used to exercise the retry policy. -/
def httpAlwaysFail : DeliveryRequest → Option Nat := fun _ => some 500

def c5State : WebhookState :=
  { webhooks := [⟨"w1", "https://example.com/hook", some "s3cr3t", true,
      ["file.created"]⟩]
    deliveries := [] }

def c5Job : DeliveryJob :=
  { webhookId := "w1"
    payload := ⟨"file.created", "2024-01-01T00:00:00Z", []⟩
    attemptsOpt := none }

/-- C5 (code bug): `webhookQueue.add('deliver', …)` passes no job options,
so Bull's default of a single attempt applies.  A job whose delivery always
fails is attempted exactly once and produces exactly one `success=false`
record — not five — and the `failed` listener's `attemptsMade >= 5` branch
(the in-code statement of the 5-attempt intent) can never fire.  Had the
queue been configured with `attempts: 5`, the same job would produce
exactly five failed records. -/
theorem webhookRetry_singleAttempt :
    triggerEvent c5State "file.created" "2024-01-01T00:00:00Z" [] = [c5Job] ∧
    jobAttempts c5Job = 1 ∧
    (processJob (fun s b => s ++ "#" ++ b) httpAlwaysFail c5State c5Job).2 = 1 ∧
    ((processJob (fun s b => s ++ "#" ++ b) httpAlwaysFail c5State c5Job).1.deliveries.map
        DeliveryRecord.success) = [false] ∧
    ¬ 5 ≤ (processJob (fun s b => s ++ "#" ++ b) httpAlwaysFail c5State c5Job).2 ∧
    ((deliverWithRetries (fun s b => s ++ "#" ++ b) httpAlwaysFail c5Job 5
        c5State 0).1.deliveries.map DeliveryRecord.success) =
      [false, false, false, false, false] := by decide

/-- Concatenation over `0..n-1` ignores slots outside that range. -/
theorem assembleChunks_congr (slots slots' : List (Nat × List Nat)) (n : Nat)
    (h : ∀ j, j < n → alistGet j slots = alistGet j slots') :
    assembleChunks slots n = assembleChunks slots' n := by
  induction n with
  | zero => rfl
  | succ n ih =>
    simp only [assembleChunks, ih (fun j hj => h j (by omega)), h n (by omega)]

/-- C1 (amended): finalize fails with `IncompleteUpload`, reporting
received-of-total, exactly when `chunksReceived ≠ totalChunks` (and commits
nothing — only the `.ok` branch produces bytes or changes state); when the
counts are equal it succeeds if and only if every slot `0..totalChunks-1`
is actually present.  (Duplicate resubmissions inflate `chunksReceived`, so
count equality alone does not guarantee success.) -/
theorem finalizeChunkedUpload_spec (st : UploadStore) (sessionId : String)
    (s : ChunkUploadSession) (hs : alistGet sessionId st.sessions = some s) :
    (s.chunksReceived ≠ s.totalChunks →
      finalizeChunkedUpload st sessionId =
        .error (.incompleteUpload s.chunksReceived s.totalChunks)) ∧
    ((∃ out, finalizeChunkedUpload st sessionId = .ok out) ↔
      s.chunksReceived = s.totalChunks ∧
        (assembleChunks ((alistGet sessionId st.scratch).getD [])
          s.totalChunks).isSome) := by
  constructor
  · intro hne
    simp [finalizeChunkedUpload, hs, hne]
  · by_cases h : s.chunksReceived = s.totalChunks
    · cases ha : assembleChunks ((alistGet sessionId st.scratch).getD [])
        s.totalChunks with
      | none => simp [finalizeChunkedUpload, hs, h, ha]
      | some bytes => simp [finalizeChunkedUpload, hs, h, ha]
    · simp [finalizeChunkedUpload, hs, h]

def c1CompleteStore : UploadStore :=
  uploadChunkOk
    (initChunkedUpload UploadStore.empty "sess" "f.bin" 5 "text/plain" "" "u1" 1).1
    "sess" 0 [5]

/-- Witness for C1: a one-chunk session that received its single chunk
finalizes successfully. -/
theorem finalizeChunkedUpload_spec_witness :
    alistGet "sess" c1CompleteStore.sessions =
      some ⟨"sess", "u1", "f.bin", 5, "text/plain", "", 1, 1⟩ ∧
    (∃ out, finalizeChunkedUpload c1CompleteStore "sess" = .ok out) :=
  ⟨by decide,
   (finalizeChunkedUpload_spec c1CompleteStore "sess"
     ⟨"sess", "u1", "f.bin", 5, "text/plain", "", 1, 1⟩ (by decide)).2.mpr
     (by decide)⟩

def c1DupStore : UploadStore :=
  uploadChunkOk
    (uploadChunkOk
      (initChunkedUpload UploadStore.empty "sess" "f.bin" 5 "text/plain" "" "u1" 2).1
      "sess" 0 [7])
    "sess" 0 [9]

/-- Counterexample to C1 as stated: after submitting index 0 twice to a
two-chunk session, `chunksReceived = totalChunks = 2`, yet finalize does
not succeed — the missing slot 1 makes the concatenation loop fail with the
generic 500 error, not with success and not with `IncompleteUpload`. -/
theorem finalizeChunkedUpload_iff_counterexample :
    (alistGet "sess" c1DupStore.sessions).map ChunkUploadSession.chunksReceived
      = some 2 ∧
    (alistGet "sess" c1DupStore.sessions).map ChunkUploadSession.totalChunks
      = some 2 ∧
    finalizeChunkedUpload c1DupStore "sess" = .error .storageFailure :=
  ⟨by decide, by decide, rfl⟩

/-- C10: `uploadChunk` never checks the index against `totalChunks` (the
route only rejects negative indices, which cannot arise for naturals): any
index `≥ totalChunks` is accepted, its slot is written, and
`chunksReceived` is incremented — yet the finalize concatenation over
slots `0..totalChunks-1` is unaffected by the out-of-range slot. -/
theorem uploadChunk_out_of_range_counted (st : UploadStore)
    (sessionId : String) (s : ChunkUploadSession) (i : Nat) (b : List Nat)
    (hs : alistGet sessionId st.sessions = some s) (hi : s.totalChunks ≤ i) :
    ∃ st', uploadChunk st sessionId i b =
        .ok (st', s.chunksReceived + 1, s.totalChunks) ∧
      alistGet i ((alistGet sessionId st'.scratch).getD []) = some b ∧
      (alistGet sessionId st'.sessions).map ChunkUploadSession.chunksReceived
        = some (s.chunksReceived + 1) ∧
      assembleChunks ((alistGet sessionId st'.scratch).getD []) s.totalChunks
        = assembleChunks ((alistGet sessionId st.scratch).getD [])
            s.totalChunks := by
  refine ⟨{ sessions := alistSet sessionId
              { s with chunksReceived := s.chunksReceived + 1 } st.sessions
            scratch := alistSet sessionId
              (alistSet i b ((alistGet sessionId st.scratch).getD []))
              st.scratch }, ?_, ?_, ?_, ?_⟩
  · simp [uploadChunk, hs]
  · simp [alistGet_set_same]
  · simp [alistGet_set_same]
  · simp only [alistGet_set_same, Option.getD_some]
    exact assembleChunks_congr _ _ _ (fun j hj =>
      alistGet_set_other b _ (by omega))

theorem joinAll_append (xs ys : List (List Nat)) :
    joinAll (xs ++ ys) = joinAll xs ++ joinAll ys := by
  induction xs with
  | nil => simp [joinAll]
  | cons hd tl ih => simp [joinAll, ih]

/-- A slot after a left fold of writes holds the last write to it, falling
back to its previous contents. -/
theorem foldl_set_get (ups : List (Nat × List Nat)) (j : Nat) :
    ∀ sl0 : List (Nat × List Nat),
      alistGet j (ups.foldl (fun sl p => alistSet p.1 p.2 sl) sl0) =
        match lastWrite ups j with
        | some v => some v
        | none => alistGet j sl0 := by
  induction ups with
  | nil => intro sl0; rfl
  | cons p rest ih =>
    intro sl0
    rw [List.foldl_cons, ih (alistSet p.1 p.2 sl0)]
    cases hl : lastWrite rest j with
    | some v => simp [lastWrite, hl]
    | none =>
      by_cases hij : p.1 = j
      · subst hij
        simp [lastWrite, hl, alistGet_set_same]
      · simp [lastWrite, hl, hij, alistGet_set_other _ _ (Ne.symm hij)]

theorem lastWrite_isSome_iff (ups : List (Nat × List Nat)) (j : Nat) :
    (lastWrite ups j).isSome ↔ j ∈ ups.map Prod.fst := by
  induction ups with
  | nil => simp [lastWrite]
  | cons p rest ih =>
    rw [List.map_cons, List.mem_cons, ← ih]
    cases hl : lastWrite rest j with
    | some v => simp [lastWrite, hl]
    | none =>
      by_cases hij : p.1 = j
      · simp [lastWrite, hl, hij]
      · simp [lastWrite, hl, hij, Ne.symm hij]

theorem assembleChunks_of_forall (slots : List (Nat × List Nat))
    (f : Nat → List Nat) :
    ∀ n : Nat, (∀ i, i < n → alistGet i slots = some (f i)) →
      assembleChunks slots n = some (joinAll ((List.range n).map f)) := by
  intro n
  induction n with
  | zero => intro _; rfl
  | succ n ih =>
    intro h
    rw [List.range_succ, List.map_append, joinAll_append]
    simp only [assembleChunks, ih (fun i hi => h i (by omega)), h n (by omega)]
    simp [joinAll]

/-- The concatenation over `0..n-1` exists exactly when every slot in that
range is present. -/
theorem assembleChunks_isSome_iff (slots : List (Nat × List Nat)) :
    ∀ n : Nat, (assembleChunks slots n).isSome ↔
      ∀ i, i < n → (alistGet i slots).isSome := by
  intro n
  induction n with
  | zero => simp [assembleChunks]
  | succ n ih =>
    constructor
    · intro h i hi
      rcases hassem : assembleChunks slots n with _ | acc
      · rw [assembleChunks, hassem] at h
        simp at h
      · rcases hget : alistGet n slots with _ | b
        · rw [assembleChunks, hassem, hget] at h
          simp at h
        · by_cases hin : i < n
          · exact ih.mp (by simp [hassem]) i hin
          · have hieq : i = n := by omega
            simp [hieq, hget]
    · intro h
      obtain ⟨acc, hacc⟩ := Option.isSome_iff_exists.mp
        (ih.mpr (fun i hi => h i (by omega)))
      obtain ⟨b, hb⟩ := Option.isSome_iff_exists.mp (h n (by omega))
      simp [assembleChunks, hacc, hb]

/-- Replaying a list of chunk uploads against a live session: every call is
accepted, the received-count grows by the number of calls, and the scratch
slots are the left fold of the writes. -/
theorem runUploads_ok (sessionId : String) (ups : List (Nat × List Nat)) :
    ∀ (st : UploadStore) (s : ChunkUploadSession)
      (slots0 : List (Nat × List Nat)),
      alistGet sessionId st.sessions = some s →
      alistGet sessionId st.scratch = some slots0 →
      ∃ st', runUploads st sessionId ups = .ok st' ∧
        alistGet sessionId st'.sessions =
          some { s with chunksReceived := s.chunksReceived + ups.length } ∧
        alistGet sessionId st'.scratch =
          some (ups.foldl (fun sl p => alistSet p.1 p.2 sl) slots0) := by
  induction ups with
  | nil =>
    intro st s slots0 hs hsc
    refine ⟨st, rfl, ?_, hsc⟩
    rw [hs]
    cases s
    simp
  | cons p rest ih =>
    intro st s slots0 hs hsc
    obtain ⟨st', hrun, hs', hsc'⟩ := ih
      { sessions := alistSet sessionId
          { s with chunksReceived := s.chunksReceived + 1 } st.sessions
        scratch := alistSet sessionId (alistSet p.1 p.2 slots0) st.scratch }
      { s with chunksReceived := s.chunksReceived + 1 }
      (alistSet p.1 p.2 slots0)
      (alistGet_set_same _ _ _) (alistGet_set_same _ _ _)
    refine ⟨st', ?_, ?_, hsc'⟩
    · rw [runUploads, uploadChunk, hs, hsc]
      exact hrun
    · rw [hs']
      cases s with
      | mk id userId fileName fileSize mimeType filePath c tc =>
        have h3 : c + 1 + rest.length = c + (rest.length + 1) := by omega
        simp [h3]

/-- C2 (amended): `uploadChunk` accepts any index in any order, duplicates
included — last write wins for the slot and every accepted call increments
`chunksReceived` — and a fresh session's upload sequence can be finalized
if and only if its index sequence is a permutation of `0..totalChunks-1`
(every index exactly once, in any order).  In particular a sequence that
resubmitted some index can never be finalized; when finalization is
possible, the committed object is the concatenation, in index order, of
each slot's last-written bytes. -/
theorem uploadChunk_anyOrder_finalize :
    (∀ (st : UploadStore) (sessionId : String) (s : ChunkUploadSession)
       (i : Nat) (b : List Nat),
      alistGet sessionId st.sessions = some s →
      ∃ st', uploadChunk st sessionId i b =
          .ok (st', s.chunksReceived + 1, s.totalChunks) ∧
        alistGet i ((alistGet sessionId st'.scratch).getD []) = some b ∧
        (∀ j, j ≠ i →
          alistGet j ((alistGet sessionId st'.scratch).getD []) =
            alistGet j ((alistGet sessionId st.scratch).getD []))) ∧
    (∀ (st : UploadStore) (sessionId : String) (s : ChunkUploadSession)
       (ups : List (Nat × List Nat)),
      alistGet sessionId st.sessions = some s →
      alistGet sessionId st.scratch = some [] →
      s.chunksReceived = 0 →
      ∃ st', runUploads st sessionId ups = .ok st' ∧
        ((∃ out, finalizeChunkedUpload st' sessionId = .ok out) ↔
          (ups.map Prod.fst).Perm (List.range s.totalChunks)) ∧
        (¬ (ups.map Prod.fst).Nodup →
          ¬ ∃ out, finalizeChunkedUpload st' sessionId = .ok out) ∧
        ((ups.map Prod.fst).Perm (List.range s.totalChunks) →
          ∃ st'' bytes, finalizeChunkedUpload st' sessionId = .ok (st'', bytes) ∧
            bytes = joinAll ((List.range s.totalChunks).map
              (fun i => (lastWrite ups i).getD [])))) := by
  constructor
  · intro st sessionId s i b hs
    refine ⟨{ sessions := alistSet sessionId
                { s with chunksReceived := s.chunksReceived + 1 } st.sessions
              scratch := alistSet sessionId
                (alistSet i b ((alistGet sessionId st.scratch).getD []))
                st.scratch }, ?_, ?_, ?_⟩
    · simp [uploadChunk, hs]
    · simp [alistGet_set_same]
    · intro j hj
      simp only [alistGet_set_same, Option.getD_some]
      exact alistGet_set_other _ _ hj
  · intro st sessionId s ups hs hsc hc
    obtain ⟨st', hrun, hs', hsc'⟩ := runUploads_ok sessionId ups st s [] hs hsc
    have hslots : ∀ i,
        alistGet i (ups.foldl (fun sl p => alistSet p.1 p.2 sl)
          ([] : List (Nat × List Nat))) = lastWrite ups i := by
      intro i
      rw [foldl_set_get]
      cases lastWrite ups i with
      | none => rfl
      | some v => rfl
    have hiff : (∃ out, finalizeChunkedUpload st' sessionId = .ok out) ↔
        (ups.map Prod.fst).Perm (List.range s.totalChunks) := by
      rw [(finalizeChunkedUpload_spec st' sessionId _ hs').2]
      simp only [hsc', Option.getD_some]
      constructor
      · rintro ⟨hcount, hsome⟩
        have hlen : ups.length = s.totalChunks := by
          have hcount' : s.chunksReceived + ups.length = s.totalChunks := hcount
          omega
        have hcov : List.range s.totalChunks ⊆ ups.map Prod.fst := by
          intro i hi
          have hi' : i < s.totalChunks := List.mem_range.mp hi
          have hsome2 := (assembleChunks_isSome_iff _ _).mp hsome i hi'
          rw [hslots] at hsome2
          exact (lastWrite_isSome_iff ups i).mp hsome2
        have hsp := List.subperm_of_subset (List.nodup_range _) hcov
        refine (hsp.perm_of_length_le ?_).symm
        simp [hlen]
      · intro hperm
        have hlen : ups.length = s.totalChunks := by
          have := hperm.length_eq
          simpa using this
        refine ⟨?_, ?_⟩
        · show s.chunksReceived + ups.length = s.totalChunks
          omega
        · refine (assembleChunks_isSome_iff _ _).mpr ?_
          intro i hi
          rw [hslots]
          exact (lastWrite_isSome_iff ups i).mpr
            (hperm.mem_iff.mpr (List.mem_range.mpr hi))
    refine ⟨st', hrun, hiff, ?_, ?_⟩
    · intro hnd hsucc
      exact hnd ((hiff.mp hsucc).nodup_iff.mpr (List.nodup_range _))
    · intro hperm
      have hlen : ups.length = s.totalChunks := by
        have := hperm.length_eq
        simpa using this
      have hslot : ∀ i, i < s.totalChunks →
          alistGet i (ups.foldl (fun sl p => alistSet p.1 p.2 sl) []) =
            some ((lastWrite ups i).getD []) := by
        intro i hi
        have hmem : i ∈ ups.map Prod.fst :=
          hperm.mem_iff.mpr (List.mem_range.mpr hi)
        have hsome : (lastWrite ups i).isSome :=
          (lastWrite_isSome_iff ups i).mpr hmem
        rw [hslots]
        obtain ⟨v, hv⟩ := Option.isSome_iff_exists.mp hsome
        simp [hv]
      have hassemble :
          assembleChunks (ups.foldl (fun sl p => alistSet p.1 p.2 sl) [])
            s.totalChunks =
            some (joinAll ((List.range s.totalChunks).map
              (fun i => (lastWrite ups i).getD []))) :=
        assembleChunks_of_forall _ _ _ hslot
      rw [finalizeChunkedUpload, hs', hsc']
      simp [hc, hlen, hassemble]

def c2Runs : List (Nat × List Nat) := [(2, [20]), (0, [10]), (1, [11]), (0, [12])]

def c2PermStore : UploadStore :=
  (initChunkedUpload UploadStore.empty "sess" "h.bin" 9 "text/plain" "" "u1" 3).1

/-- Witness for C2 on a three-chunk session uploaded out of order
(2, 0, 1). -/
theorem uploadChunk_anyOrder_finalize_witness :
    alistGet "sess" c2PermStore.sessions =
      some ⟨"sess", "u1", "h.bin", 9, "text/plain", "", 0, 3⟩ ∧
    (∃ st', runUploads c2PermStore "sess" [(2, [20]), (0, [10]), (1, [11])]
        = .ok st' ∧
      ((∃ out, finalizeChunkedUpload st' "sess" = .ok out) ↔
        ([(2, [20]), (0, [10]), (1, [11])].map Prod.fst).Perm (List.range 3)) ∧
      (¬ ([(2, [20]), (0, [10]), (1, [11])].map Prod.fst).Nodup →
        ¬ ∃ out, finalizeChunkedUpload st' "sess" = .ok out) ∧
      (([(2, [20]), (0, [10]), (1, [11])].map Prod.fst).Perm (List.range 3) →
        ∃ st'' bytes, finalizeChunkedUpload st' "sess" = .ok (st'', bytes) ∧
          bytes = joinAll ((List.range 3).map
            (fun i => (lastWrite [(2, [20]), (0, [10]), (1, [11])] i).getD [])))) :=
  ⟨by decide,
   uploadChunk_anyOrder_finalize.2 c2PermStore "sess"
     ⟨"sess", "u1", "h.bin", 9, "text/plain", "", 0, 3⟩
     [(2, [20]), (0, [10]), (1, [11])]
     (by decide) (by decide) rfl⟩

def c2DupStore : UploadStore :=
  uploadChunkOk
    (uploadChunkOk
      (initChunkedUpload UploadStore.empty "sess" "g.bin" 4 "text/plain" "" "u1" 1).1
      "sess" 0 [3])
    "sess" 0 [4]

/-- Counterexample to C2 as stated: on a one-chunk session, submitting
index 0 twice leaves every index `0..totalChunks-1` received (slot 0 holds
the last write, `[4]`), yet the session cannot be finalized —
`chunksReceived` was incremented to 2 and finalize fails with
`IncompleteUpload 2 1`.  (A duplicate can also leave the counts equal and
fail differently: see `finalizeChunkedUpload_iff_counterexample`, where the
failure is the generic storage error.) -/
theorem uploadChunk_duplicate_counterexample :
    alistGet 0 ((alistGet "sess" c2DupStore.scratch).getD []) = some [4] ∧
    (alistGet "sess" c2DupStore.sessions).map ChunkUploadSession.totalChunks
      = some 1 ∧
    finalizeChunkedUpload c2DupStore "sess" =
      .error (.incompleteUpload 2 1) :=
  ⟨by decide, by decide, rfl⟩

theorem le_foldr_max {x : Nat} {l : List Nat} (h : x ∈ l) :
    x ≤ l.foldr max 0 := by
  induction l with
  | nil => cases h
  | cons hd tl ih =>
    rcases List.mem_cons.mp h with rfl | hmem
    · exact Nat.le_max_left _ _
    · exact le_trans (ih hmem) (Nat.le_max_right _ _)

theorem foldr_max_perm {l l' : List Nat} (h : l.Perm l') :
    l.foldr max 0 = l'.foldr max 0 := by
  induction h with
  | nil => rfl
  | cons x _ ih => simp [ih]
  | swap x y l => simp [Nat.max_left_comm]
  | trans _ _ ih1 ih2 => exact ih1.trans ih2

theorem maxVersionRows_perm {rows rows' : List VersionRow} (fileId : String)
    (h : rows.Perm rows') :
    maxVersionRows rows fileId = maxVersionRows rows' fileId :=
  foldr_max_perm ((h.filter _).map _)

theorem versionNumber_le_maxVersionRows {rows : List VersionRow}
    {r : VersionRow} (fileId : String) (hmem : r ∈ rows)
    (hfid : r.fileId = fileId) : r.versionNumber ≤ maxVersionRows rows fileId :=
  le_foldr_max (List.mem_map_of_mem _
    (List.mem_filter.mpr ⟨hmem, by simp [hfid]⟩))

theorem removeFirstRow_perm {p : VersionRow → Bool} :
    ∀ {rows : List VersionRow}, rows.any p = true →
      ∃ r, p r = true ∧ rows.Perm (r :: removeFirstRow p rows) := by
  intro rows h
  induction rows with
  | nil => cases h
  | cons hd tl ih =>
    by_cases hp : p hd
    · exact ⟨hd, hp, by simp [removeFirstRow, hp]⟩
    · have htl : tl.any p = true := by
        rcases List.any_eq_true.mp h with ⟨r, hr, hpr⟩
        rcases List.mem_cons.mp hr with rfl | hmem
        · exact absurd hpr hp
        · exact List.any_eq_true.mpr ⟨r, hmem, hpr⟩
      obtain ⟨r, hpr, hperm⟩ := ih htl
      refine ⟨r, hpr, ?_⟩
      have h1 : (hd :: tl).Perm (hd :: r :: removeFirstRow p tl) := hperm.cons hd
      have h2 : (hd :: r :: removeFirstRow p tl).Perm
          (r :: hd :: removeFirstRow p tl) := List.Perm.swap r hd _
      simpa [removeFirstRow, hp] using h1.trans h2

/-- Removing one version row whose number is below the current maximum
leaves the maximum unchanged. -/
theorem maxVersionRows_removeFirst (rows : List VersionRow)
    (fileId : String) (v : Nat)
    (hany : rows.any (fun r => r.fileId == fileId && r.versionNumber == v) = true)
    (hlt : v < maxVersionRows rows fileId) :
    maxVersionRows
      (removeFirstRow (fun r => r.fileId == fileId && r.versionNumber == v) rows)
      fileId = maxVersionRows rows fileId := by
  obtain ⟨r, hpr, hperm⟩ := removeFirstRow_perm hany
  have hr : r.fileId = fileId ∧ r.versionNumber = v := by
    simpa using hpr
  have hmax : maxVersionRows rows fileId =
      max v (maxVersionRows
        (removeFirstRow (fun r => r.fileId == fileId && r.versionNumber == v) rows)
        fileId) := by
    rw [maxVersionRows_perm fileId hperm]
    simp [maxVersionRows, List.filter_cons, hr.1, hr.2]
  rcases Nat.le_total v
    (maxVersionRows
      (removeFirstRow (fun r => r.fileId == fileId && r.versionNumber == v) rows)
      fileId) with hle | hle
  · rw [hmax, Nat.max_eq_right hle]
  · rw [hmax] at hlt ⊢
    omega

/-- C3 (amended): `createVersion` assigns `max existing version number + 1`
(so 1 when none exist), strictly greater than every version number existing
at that moment, and a single `deleteVersion` of a version that is not the
currently highest leaves the highest number unchanged.  Version numbers can
be reused once deletion has removed the highest-numbered version: the
counterexample deletes the latest of versions 1, 2 and the next
`createVersion` assigns 2 again. -/
theorem createVersion_monotone :
    (∀ (hash : List Nat → String) (st : VersioningState)
       (fileId originalPath : String) (f : FileRow) (bytes : List Nat),
      findFile st fileId = some f →
      alistGet originalPath st.disk = some bytes →
      ∃ st' row, createVersion hash true st fileId originalPath = .ok (st', row) ∧
        row.versionNumber = maxVersion st fileId + 1 ∧
        (∀ r ∈ st.versions, r.fileId = fileId →
          r.versionNumber < row.versionNumber) ∧
        (st.versions.filter (fun r => r.fileId == fileId) = [] →
          row.versionNumber = 1)) ∧
    (∀ (st : VersioningState) (fileId : String) (v : Nat) (userId : String)
       (st'' : VersioningState),
      deleteVersion true st fileId v userId = .ok st'' →
      v < maxVersion st fileId →
      maxVersion st'' fileId = maxVersion st fileId) := by
  constructor
  · intro hash st fileId originalPath f bytes hf hb
    refine ⟨{ st with
                versions := st.versions ++
                  [⟨fileId, maxVersion st fileId + 1,
                    fileId ++ "/v" ++ toString (maxVersion st fileId + 1),
                    bytes.length, hash bytes⟩]
                versionFiles :=
                  alistSet (fileId, maxVersion st fileId + 1) bytes
                    st.versionFiles },
      ⟨fileId, maxVersion st fileId + 1,
        fileId ++ "/v" ++ toString (maxVersion st fileId + 1),
        bytes.length, hash bytes⟩,
      by simp [createVersion, hf, hb], rfl, ?_, ?_⟩
    · intro r hmem hfid
      have := versionNumber_le_maxVersionRows fileId hmem hfid
      simp only [maxVersion]
      omega
    · intro hfil
      simp [maxVersion, maxVersionRows, hfil]
  · intro st fileId v userId st'' hdel hlt
    rw [deleteVersion] at hdel
    simp only [Bool.not_true, Bool.false_eq_true, if_false] at hdel
    cases hfo : findFileOwned st fileId userId with
    | none => rw [hfo] at hdel; cases hdel
    | some file =>
      rw [hfo] at hdel
      cases hfv : findVersion st fileId v with
      | none => rw [hfv] at hdel; cases hdel
      | some row =>
        rw [hfv] at hdel
        cases hvf : alistGet (fileId, v) st.versionFiles with
        | none => rw [hvf] at hdel; cases hdel
        | some bytes =>
          rw [hvf] at hdel
          have hst : st'' = { st with
              versionFiles := alistRemove (fileId, v) st.versionFiles
              versions := removeFirstRow
                (fun r => r.fileId == fileId && r.versionNumber == v)
                st.versions } := by
            cases hdel; rfl
          subst hst
          have hfv' : st.versions.find?
              (fun r => r.fileId == fileId && r.versionNumber == v) = some row :=
            hfv
          have hp := List.find?_some hfv'
          have hmem := List.mem_of_find?_eq_some hfv'
          have hany : st.versions.any
              (fun r => r.fileId == fileId && r.versionNumber == v) = true :=
            List.any_eq_true.mpr ⟨row, hmem, hp⟩
          exact maxVersionRows_removeFirst st.versions fileId v hany hlt

theorem find?_map_id_pred (l : List FileRow) (u : FileRow → FileRow)
    (fileId : String) (hu : ∀ g, (u g).id = g.id) :
    (l.map u).find? (fun g => g.id == fileId) =
      (l.find? (fun g => g.id == fileId)).map u := by
  induction l with
  | nil => rfl
  | cons hd tl ih =>
    by_cases h : hd.id = fileId
    · have hb : (hd.id == fileId) = true := by simp [h]
      simp [List.find?, hu, hb]
    · have hb : (hd.id == fileId) = false := by simp [h]
      simp [List.find?, hu, hb, ih]

/-- C4: `restoreVersion` first snapshots the current live content as a new
version — visible afterwards through `getVersions` and absent before — and
then overwrites the live object so that its recorded checksum equals the
restored version's stored checksum and its size the version's size.  The
hypotheses `row.checksum = hash vb` and `row.size = vb.length` state that
the on-disk version slot still matches its recorded metadata, which holds
for every slot `createVersion` writes. -/
theorem restoreVersion_snapshot_and_checksum (hash : List Nat → String)
    (st : VersioningState) (fileId : String) (v : Nat) (userId : String)
    (f : FileRow) (row : VersionRow) (vb cur : List Nat)
    (hfo : findFileOwned st fileId userId = some f)
    (hff : findFile st fileId = some f)
    (hfv : findVersion st fileId v = some row)
    (hvf : alistGet (fileId, v) st.versionFiles = some vb)
    (hck : row.checksum = hash vb)
    (hsz : row.size = vb.length)
    (hcur : alistGet (joinPath f.path f.name) st.disk = some cur) :
    ∃ st', restoreVersion hash true st fileId v userId = .ok st' ∧
      (⟨fileId, maxVersion st fileId + 1,
        fileId ++ "/v" ++ toString (maxVersion st fileId + 1),
        cur.length, hash cur⟩ : VersionRow) ∈ getVersions st' fileId ∧
      (⟨fileId, maxVersion st fileId + 1,
        fileId ++ "/v" ++ toString (maxVersion st fileId + 1),
        cur.length, hash cur⟩ : VersionRow) ∉ getVersions st fileId ∧
      ∃ f', findFile st' fileId = some f' ∧
        f'.checksum = some row.checksum ∧ f'.size = row.size := by
  have hfv' : st.versions.find?
      (fun r => r.fileId == fileId && r.versionNumber == v) = some row := hfv
  have hprow := List.find?_some hfv'
  have hmemrow := List.mem_of_find?_eq_some hfv'
  have hfid : row.fileId = fileId ∧ row.versionNumber = v := by simpa using hprow
  have hvle : v ≤ maxVersion st fileId := by
    have := versionNumber_le_maxVersionRows fileId hmemrow hfid.1
    rw [hfid.2] at this
    exact this
  have hne : ((fileId, v) : String × Nat) ≠ (fileId, maxVersion st fileId + 1) := by
    intro h
    have := congrArg Prod.snd h
    simp at this
    omega
  have hff' : st.files.find? (fun g => g.id == fileId) = some f := hff
  have hfidf : f.id = fileId := by simpa using List.find?_some hff'
  -- the snapshot row and intermediate / final states of the computation
  have hcv : createVersion hash true st fileId (joinPath f.path f.name) =
      .ok ({ st with
               versions := st.versions ++
                 [⟨fileId, maxVersion st fileId + 1,
                   fileId ++ "/v" ++ toString (maxVersion st fileId + 1),
                   cur.length, hash cur⟩]
               versionFiles := alistSet (fileId, maxVersion st fileId + 1) cur
                 st.versionFiles },
            ⟨fileId, maxVersion st fileId + 1,
              fileId ++ "/v" ++ toString (maxVersion st fileId + 1),
              cur.length, hash cur⟩) := by
    simp [createVersion, hff, hcur]
  refine ⟨{ files := st.files.map (fun g =>
              if g.id == fileId then
                { g with size := vb.length, checksum := some (hash vb) }
              else g)
            versions := st.versions ++
              [⟨fileId, maxVersion st fileId + 1,
                fileId ++ "/v" ++ toString (maxVersion st fileId + 1),
                cur.length, hash cur⟩]
            disk := alistSet (joinPath f.path f.name) vb st.disk
            versionFiles := alistSet (fileId, maxVersion st fileId + 1) cur
              st.versionFiles }, ?_, ?_, ?_, ?_⟩
  · have hvf1 : alistGet (fileId, v)
        (alistSet (fileId, maxVersion st fileId + 1) cur st.versionFiles) =
        some vb := by
      rw [alistGet_set_other _ _ hne]
      exact hvf
    rw [restoreVersion]
    simp only [Bool.not_true, Bool.false_eq_true, if_false]
    rw [hfo, hfv]
    simp only [hcv, hvf1]
  · exact List.mem_filter.mpr ⟨List.mem_append_right _ (List.mem_singleton.mpr rfl),
      by simp⟩
  · intro hmem
    have hm := List.mem_filter.mp hmem
    have hle := versionNumber_le_maxVersionRows fileId hm.1 rfl
    have hcontra : maxVersion st fileId + 1 ≤ maxVersion st fileId := hle
    omega
  · refine ⟨{ f with size := vb.length, checksum := some (hash vb) }, ?_, by
      simp [hck], by simp [hsz]⟩
    have hmap := find?_map_id_pred st.files
      (fun g => if g.id == fileId then
        { g with size := vb.length, checksum := some (hash vb) }
      else g) fileId (by
        intro g
        by_cases hg : (g.id == fileId) = true <;> simp [hg])
    show List.find? (fun g => g.id == fileId)
      (List.map (fun g => if g.id == fileId then
        { g with size := vb.length, checksum := some (hash vb) }
      else g) st.files) = _
    rw [hmap, hff']
    simp [hfidf]

def c3Hash : List Nat → String := fun b => "md5-" ++ toString b.length

def c4File : FileRow :=
  { id := "f1", userId := "u1", name := "a.txt", path := "docs"
    mimeType := "text/plain", size := 3, checksum := none }

def c4St : VersioningState :=
  { files := [c4File]
    versions := [⟨"f1", 1, "f1/v1", 2, "md5-2"⟩]
    disk := [("docs/a.txt", [1, 2, 3])]
    versionFiles := [(("f1", 1), [9, 9])] }

/-- Witness for C4: restoring version 1 over a live 3-byte file. -/
theorem restoreVersion_snapshot_and_checksum_witness :
    findVersion c4St "f1" 1 = some ⟨"f1", 1, "f1/v1", 2, "md5-2"⟩ ∧
    (∃ st', restoreVersion c3Hash true c4St "f1" 1 "u1" = .ok st' ∧
      (⟨"f1", maxVersion c4St "f1" + 1,
        "f1" ++ "/v" ++ toString (maxVersion c4St "f1" + 1),
        ([1, 2, 3] : List Nat).length, c3Hash [1, 2, 3]⟩ : VersionRow) ∈
          getVersions st' "f1" ∧
      (⟨"f1", maxVersion c4St "f1" + 1,
        "f1" ++ "/v" ++ toString (maxVersion c4St "f1" + 1),
        ([1, 2, 3] : List Nat).length, c3Hash [1, 2, 3]⟩ : VersionRow) ∉
          getVersions c4St "f1" ∧
      ∃ f', findFile st' "f1" = some f' ∧
        f'.checksum = some "md5-2" ∧ f'.size = 2) :=
  ⟨by decide,
   restoreVersion_snapshot_and_checksum c3Hash c4St "f1" 1 "u1" c4File
     ⟨"f1", 1, "f1/v1", 2, "md5-2"⟩ [9, 9] [1, 2, 3]
     (by decide) (by decide) (by decide) (by decide) (by decide) (by decide)
     (by decide)⟩

def c3File : FileRow :=
  { id := "f1", userId := "u1", name := "a.txt", path := "docs"
    mimeType := "text/plain", size := 3, checksum := none }

def c3St0 : VersioningState :=
  { files := [c3File], versions := [], disk := [("docs/a.txt", [1, 2, 3])]
    versionFiles := [] }

def c3St1 : VersioningState := createVersionOk c3Hash true c3St0 "f1" "docs/a.txt"

def c3St2 : VersioningState := createVersionOk c3Hash true c3St1 "f1" "docs/a.txt"

def c3St3 : VersioningState := deleteVersionOk true c3St2 "f1" 2 "u1"

/-- Counterexample to C3 as stated: versions 1 and 2 are created; version 2
is deleted; the next `createVersion` assigns number 2 again — a version
number is reused after `deleteVersion` removed the latest version. -/
theorem versionNumber_reuse_counterexample :
    createVersionNum c3Hash true c3St1 "f1" "docs/a.txt" = 2 ∧
    findVersion c3St3 "f1" 2 = none ∧
    createVersionNum c3Hash true c3St3 "f1" "docs/a.txt" = 2 := by decide

def c3DelSt : VersioningState := deleteVersionOk true c3St2 "f1" 1 "u1"

/-- Witness for C3: creation from the empty history assigns version 1, and
deleting the non-latest version 1 of a two-version history preserves the
maximum. -/
theorem createVersion_monotone_witness :
    findFile c3St0 "f1" = some c3File ∧
    (∃ st' row, createVersion c3Hash true c3St0 "f1" "docs/a.txt" =
        .ok (st', row) ∧
      row.versionNumber = maxVersion c3St0 "f1" + 1 ∧
      (∀ r ∈ c3St0.versions, r.fileId = "f1" →
        r.versionNumber < row.versionNumber) ∧
      (c3St0.versions.filter (fun r => r.fileId == "f1") = [] →
        row.versionNumber = 1)) ∧
    maxVersion c3DelSt "f1" = maxVersion c3St2 "f1" :=
  ⟨by decide,
   createVersion_monotone.1 c3Hash c3St0 "f1" "docs/a.txt" c3File [1, 2, 3]
     (by decide) (by decide),
   createVersion_monotone.2 c3St2 "f1" 1 "u1" c3DelSt (by decide) (by decide)⟩

def c10Store : UploadStore :=
  (initChunkedUpload UploadStore.empty "sess" "f.bin" 5 "text/plain" "" "u1" 2).1

/-- Witness for C10: index 7 on a two-chunk session. -/
theorem uploadChunk_out_of_range_counted_witness :
    alistGet "sess" c10Store.sessions =
      some ⟨"sess", "u1", "f.bin", 5, "text/plain", "", 0, 2⟩ ∧
    (∃ st', uploadChunk c10Store "sess" 7 [1, 2] = .ok (st', 0 + 1, 2) ∧
      alistGet 7 ((alistGet "sess" st'.scratch).getD []) = some [1, 2] ∧
      (alistGet "sess" st'.sessions).map ChunkUploadSession.chunksReceived
        = some (0 + 1) ∧
      assembleChunks ((alistGet "sess" st'.scratch).getD []) 2
        = assembleChunks ((alistGet "sess" c10Store.scratch).getD []) 2) :=
  ⟨by decide,
   uploadChunk_out_of_range_counted c10Store "sess"
     ⟨"sess", "u1", "f.bin", 5, "text/plain", "", 0, 2⟩ 7 [1, 2]
     (by decide) (by decide)⟩

end Cdn
